import Mathlib

/-!
Verification of the `ts-fix` CLI (src/src/cli.ts) against its specification.

Shallow embedding conventions:
* File contents are `List Char` (JavaScript strings of UTF-16 code units are
  modelled as character lists; `String.prototype.substring` with clamped
  indices becomes `List.take` / `List.drop`, which clamp the same way).
* File paths appear in two forms.  In the pipeline they are `String`s, as in
  the source.  The Node `path` library (an external collaborator) is modelled
  on segment lists (`List String`): `path.dirname` drops the last segment,
  `path.join` concatenates, `path.relative` strips the common prefix and emits
  `..` segments, `path.resolve` pushes segments interpreting `..`.  A `String`
  path is bridged to segments by `splitPath`.
* The host (writeFile / mkdir / log) is modelled by an event trace: a run
  returns its result together with the list of `Event`s it emitted, in order.
* `Map<string, ChangedFile>` becomes a function `String → Option ChangedFile`
  with pointwise update, matching `Map.get` / `Map.set` semantics.
-/

/-- A TypeScript `TextSpan`: `start` offset and `length`, both non-negative. -/
structure TextSpan where
  start : Nat
  length : Nat
deriving DecidableEq, Repr

/-- A TypeScript `TextChange`: replace the span with `newText`. -/
structure TextChange where
  span : TextSpan
  newText : List Char
deriving DecidableEq, Repr

/-- `doTextChangeOnString` from cli.ts:
`currentFileText.substring(0, span.start) + newText +
 currentFileText.substring(span.start + span.length)`.
JS `substring` clamps out-of-range indices, exactly as `take`/`drop` do. -/
def doTextChangeOnString (currentFileText : List Char) (change : TextChange) : List Char :=
  let prefixPart := currentFileText.take change.span.start
  let middle := change.newText
  let suffixPart := currentFileText.drop (change.span.start + change.span.length)
  prefixPart ++ middle ++ suffixPart

/-- `doTextChanges` from cli.ts: the loop runs `i` from the last index down to
`0`, folding each change into the accumulated text; i.e. the last list element
is applied first and the first element last. -/
def doTextChanges (fileText : List Char) (textChanges : List TextChange) : List Char :=
  textChanges.foldr (fun change acc => doTextChangeOnString acc change) fileText

/-- Half-open spans `[start, start+length)` that do not intersect. -/
def disjointSpans (a b : TextSpan) : Prop :=
  a.start + a.length ≤ b.start ∨ b.start + b.length ≤ a.start

instance (a b : TextSpan) : Decidable (disjointSpans a b) := by
  unfold disjointSpans; infer_instance

/-- An edit list is non-overlapping when its spans are pairwise disjoint. -/
def nonOverlapping (edits : List TextChange) : Prop :=
  edits.Pairwise (fun a b => disjointSpans a.span b.span)

instance (edits : List TextChange) : Decidable (nonOverlapping edits) := by
  unfold nonOverlapping; infer_instance

/-- Ascending presentation: starts strictly increase along the list. -/
def ascendingByStart (edits : List TextChange) : Prop :=
  edits.Pairwise (fun a b => a.span.start < b.span.start)

instance (edits : List TextChange) : Decidable (ascendingByStart edits) := by
  unfold ascendingByStart; infer_instance

theorem ascending_perm_eq {l₁ l₂ : List TextChange} (hp : l₁.Perm l₂)
    (h₁ : ascendingByStart l₁) (h₂ : ascendingByStart l₂) : l₁ = l₂ := by
  haveI : IsAntisymm TextChange (fun a b => a.span.start < b.span.start) := by
    constructor
    intro a b hab hba
    exact absurd (Nat.lt_trans hab hba) (Nat.lt_irrefl _)
  exact List.eq_of_perm_of_sorted hp h₁ h₂

/-- C1 (counterexample): two disjoint positive-length edits on `"abcd"`,
presented in the two possible orders, give different outputs: the code applies
edits from the back of the list without sorting, so the result is not
invariant under permutation of the edit list. -/
theorem doTextChanges_not_perm_invariant :
    nonOverlapping [⟨⟨0, 1⟩, ['X', 'X']⟩, ⟨⟨2, 1⟩, ['Y']⟩] ∧
    nonOverlapping [⟨⟨2, 1⟩, ['Y']⟩, ⟨⟨0, 1⟩, ['X', 'X']⟩] ∧
    List.Perm [(⟨⟨0, 1⟩, ['X', 'X']⟩ : TextChange), ⟨⟨2, 1⟩, ['Y']⟩]
      [⟨⟨2, 1⟩, ['Y']⟩, ⟨⟨0, 1⟩, ['X', 'X']⟩] ∧
    doTextChanges "abcd".data [⟨⟨0, 1⟩, ['X', 'X']⟩, ⟨⟨2, 1⟩, ['Y']⟩]
      ≠ doTextChanges "abcd".data [⟨⟨2, 1⟩, ['Y']⟩, ⟨⟨0, 1⟩, ['X', 'X']⟩] := by
  refine ⟨by decide, by decide, ?_, by decide⟩
  exact List.Perm.swap _ _ _

/-- C1 (amended): the output of `doTextChanges` is the same for any two
presentations of the same non-overlapping edits that are both sorted in
ascending order of span start offset (in which case the code does process the
edits in descending start order); arbitrary permutations are not harmless. -/
theorem doTextChanges_ascending_presentations (fileText : List Char)
    (edits edits' : List TextChange) (hperm : edits.Perm edits')
    (h : ascendingByStart edits) (h' : ascendingByStart edits') :
    doTextChanges fileText edits = doTextChanges fileText edits' := by
  rw [ascending_perm_eq hperm h h']

/-- C1 witness: instantiation of the amended theorem at a concrete sorted
non-overlapping edit list. -/
theorem doTextChanges_ascending_presentations_witness :
    doTextChanges "abcd".data [⟨⟨0, 1⟩, ['X', 'X']⟩, ⟨⟨2, 1⟩, ['Y']⟩]
      = doTextChanges "abcd".data [⟨⟨0, 1⟩, ['X', 'X']⟩, ⟨⟨2, 1⟩, ['Y']⟩] :=
  doTextChanges_ascending_presentations "abcd".data _ _ (List.Perm.refl _)
    (by decide) (by decide)

/-- C4 (counterexample): the spec's round-trip example is wrong: applying
`{start:5, length:3, replacement:"XYZ"}` to `"abcdefgh"` does not give
`"abcdeXYZfgh"` (the edit replaces `"fgh"`, it does not insert before it). -/
theorem roundtrip_example_not_as_spec :
    doTextChanges "abcdefgh".data [⟨⟨5, 3⟩, "XYZ".data⟩] ≠ "abcdeXYZfgh".data := by
  decide

/-- C4 (amended): applying `{start:5, length:3, replacement:"XYZ"}` to
`"abcdefgh"` via the Patch Applier produces `"abcdeXYZ"`. -/
theorem roundtrip_example :
    doTextChanges "abcdefgh".data [⟨⟨5, 3⟩, "XYZ".data⟩] = "abcdeXYZ".data := by
  decide

/-- C5 (counterexample): the two edits `{0,1,"Z"}` and `{5,0,"-"}` on
`"abcdefgh"` do not give the spec's `"Zabcde-fgh"`: the first edit replaces
`"a"` rather than inserting before it. -/
theorem two_edit_example_not_as_spec :
    doTextChanges "abcdefgh".data [⟨⟨0, 1⟩, ['Z']⟩, ⟨⟨5, 0⟩, ['-']⟩]
      ≠ "Zabcde-fgh".data := by
  decide

/-- C5 (amended): the two edits `{0,1,"Z"}` and `{5,0,"-"}` applied to
`"abcdefgh"` yield `"Zbcde-fgh"` for either ordering of the input list. -/
theorem two_edit_example :
    doTextChanges "abcdefgh".data [⟨⟨0, 1⟩, ['Z']⟩, ⟨⟨5, 0⟩, ['-']⟩] = "Zbcde-fgh".data ∧
    doTextChanges "abcdefgh".data [⟨⟨5, 0⟩, ['-']⟩, ⟨⟨0, 1⟩, ['Z']⟩] = "Zbcde-fgh".data := by
  constructor <;> decide

theorem doTextChangeOnString_length (s : List Char) (c : TextChange) :
    (doTextChangeOnString s c).length =
      min c.span.start s.length + c.newText.length
        + (s.length - (c.span.start + c.span.length)) := by
  simp [doTextChangeOnString]
  omega

theorem doTextChangeOnString_length_le (s : List Char) (c : TextChange) :
    (doTextChangeOnString s c).length ≤ s.length + c.newText.length := by
  rw [doTextChangeOnString_length]
  rcases Nat.le_total c.span.start s.length with h | h
  · rw [Nat.min_eq_left h]; omega
  · rw [Nat.min_eq_right h]; omega

/-- C10: the Patch Applier is total and clamps out-of-range spans.  (i) The
output length of a single change is determined by the clamped prefix/suffix
lengths, for every span, in-bounds or not; (ii) a span starting at or past the
end of the text degenerates to appending `newText` (nothing is dropped, no
error); (iii) for every edit list — overlapping or out of bounds included —
`doTextChanges` produces a result, whose length is bounded by the input length
plus the total replacement length. -/
theorem patch_applier_total :
    (∀ (s : List Char) (c : TextChange),
      (doTextChangeOnString s c).length =
        min c.span.start s.length + c.newText.length
          + (s.length - (c.span.start + c.span.length))) ∧
    (∀ (s : List Char) (c : TextChange), s.length ≤ c.span.start →
      doTextChangeOnString s c = s ++ c.newText) ∧
    (∀ (fileText : List Char) (textChanges : List TextChange),
      (doTextChanges fileText textChanges).length ≤
        fileText.length + (textChanges.map (fun c => c.newText.length)).sum) := by
  refine ⟨doTextChangeOnString_length, ?_, ?_⟩
  · intro s c h
    have h' : s.length ≤ c.span.start + c.span.length := Nat.le_trans h (Nat.le_add_right _ _)
    simp [doTextChangeOnString, List.take_of_length_le h, List.drop_eq_nil_of_le h']
  · intro fileText textChanges
    induction textChanges with
    | nil => simp [doTextChanges]
    | cons c rest ih =>
      have hstep := doTextChangeOnString_length_le (doTextChanges fileText rest) c
      have : doTextChanges fileText (c :: rest)
          = doTextChangeOnString (doTextChanges fileText rest) c := rfl
      rw [this]
      simp only [List.map_cons, List.sum_cons]
      omega

/-- C10 witness: a single change whose span lies wholly past the end of a
concrete text appends the replacement, and the length bound holds there. -/
theorem patch_applier_total_witness :
    doTextChangeOnString "ab".data ⟨⟨7, 4⟩, "Z".data⟩ = "ab".data ++ "Z".data ∧
    (doTextChanges "ab".data [⟨⟨7, 4⟩, "Z".data⟩, ⟨⟨0, 9⟩, "W".data⟩]).length ≤
      ("ab".data).length + ([⟨⟨7, 4⟩, "Z".data⟩, ⟨⟨0, 9⟩, "W".data⟩].map
        (fun c : TextChange => c.newText.length)).sum :=
  ⟨patch_applier_total.2.1 "ab".data ⟨⟨7, 4⟩, "Z".data⟩ (by decide),
   patch_applier_total.2.2 "ab".data _⟩

/-- `ChangedFile` from ts.ts: the overlay entry for one file. -/
structure ChangedFile where
  originalText : List Char
  newText : List Char
deriving DecidableEq, Repr

/-- The `Map<string, ChangedFile>` of changed files, by its lookup function
(`Map.get` returns the entry or `undefined`). -/
def Overlay : Type := String → Option ChangedFile

/-- `Map.set`: pointwise update of the overlay. -/
def setOverlay (ov : Overlay) (p : String) (cf : ChangedFile) : Overlay :=
  fun q => if q = p then some cf else ov q

/-- The empty overlay (`new Map()`). -/
def emptyOverlay : Overlay := fun _ => none

/-- `readFile` from ts.ts (`createProject`'s closure): if the changed-files
map has an entry for the path, return its `newText`; otherwise delegate to
`ts.sys.readFile` (which yields `undefined` when the file does not exist). -/
def readFile (changedFiles : Overlay) (sysReadFile : String → Option (List Char))
    (p : String) : Option (List Char) :=
  match changedFiles p with
  | some cf => some cf.newText
  | none => sysReadFile p

/-- C2: the overlay-aware reader returns the overlay entry's `newText`
whenever the path is a key of the overlay map, delegates to the real
file-system read otherwise, and after `newText` is recorded for a path every
subsequent read of that path returns the recorded `newText`. -/
theorem readFile_overlay_spec :
    (∀ (ov : Overlay) (sys : String → Option (List Char)) (p : String) (cf : ChangedFile),
      ov p = some cf → readFile ov sys p = some cf.newText) ∧
    (∀ (ov : Overlay) (sys : String → Option (List Char)) (p : String),
      ov p = none → readFile ov sys p = sys p) ∧
    (∀ (ov : Overlay) (sys : String → Option (List Char)) (p : String) (cf : ChangedFile),
      readFile (setOverlay ov p cf) sys p = some cf.newText) := by
  refine ⟨?_, ?_, ?_⟩
  · intro ov sys p cf h
    simp [readFile, h]
  · intro ov sys p h
    simp [readFile, h]
  · intro ov sys p cf
    simp [readFile, setOverlay]

/-- C2 witness: concrete overlay hit, miss, and read-after-write. -/
theorem readFile_overlay_spec_witness :
    readFile (setOverlay emptyOverlay "a.ts" ⟨"old".data, "new".data⟩)
      (fun _ => none) "a.ts" = some "new".data ∧
    readFile (fun q => if q = "b.ts" then some ⟨"o".data, "n".data⟩ else none)
      (fun _ => none) "b.ts" = some ("n".data) ∧
    readFile emptyOverlay (fun _ => some "disk".data) "c.ts" = some "disk".data :=
  ⟨readFile_overlay_spec.2.2 emptyOverlay (fun _ => none) "a.ts" ⟨"old".data, "new".data⟩,
   readFile_overlay_spec.1 _ (fun _ => none) "b.ts" ⟨"o".data, "n".data⟩ (by simp),
   readFile_overlay_spec.2.1 emptyOverlay (fun _ => some "disk".data) "c.ts" rfl⟩

/-- Is a character one of the two path separator styles (`/` or `\`)? -/
def isPathSep (c : Char) : Bool := c = '/' || c = '\\'

def splitPathAux : List Char → List Char → List String
  | cur, [] => if cur.isEmpty then [] else [String.mk cur.reverse]
  | cur, c :: rest =>
    if isPathSep c then
      if cur.isEmpty then splitPathAux [] rest
      else String.mk cur.reverse :: splitPathAux [] rest
    else splitPathAux (c :: cur) rest

/-- Bridge from a string path to its list of non-empty separated segments
(paths in this development are absolute, so the leading separator carries no
information). -/
def splitPath (s : String) : List String := splitPathAux [] s.data

/-- Render an absolute segment path back to a string with `/` separators. -/
def renderAbs (segs : List String) : String :=
  segs.foldl (fun acc seg => acc ++ "/" ++ seg) ""

/-- `getDirectory` from cli.ts (`path.dirname`), on segment lists. -/
def getDirectory (filePath : List String) : List String := filePath.dropLast

/-- Node `path.dirname` on a string path, through the segment model. -/
def dirnameString (s : String) : String := renderAbs (getDirectory (splitPath s))

/-- Node `path.join(dir, f)` for a directory and a relative path (the dot
normalization that `join` also performs is not exercised here). -/
def joinPath (dir f : String) : String := dir ++ "/" ++ f

/-- Node `path.relative(fromDir, toPath)` on segment lists: strip the common
prefix, then climb with `..` for what remains of `fromDir`. -/
def relativePath : List String → List String → List String
  | [], toSegs => toSegs
  | fromSegs, [] => List.replicate fromSegs.length ".."
  | f :: fs, t :: ts =>
    if f = t then relativePath fs ts
    else List.replicate (f :: fs).length ".." ++ (t :: ts)

/-- Node `path.resolve(base, rel)` on segment lists: push `rel`'s segments
onto `base`, a `..` popping the last segment. -/
def resolvePath (base rel : List String) : List String :=
  rel.foldl (fun acc seg => if seg = ".." then acc.dropLast else acc ++ [seg]) base

/-- `Options` from cli.ts (`tsconfig` and `outputFolder` are absolute). -/
structure Options where
  cwd : String
  tsconfig : String
  outputFolder : String
  file : List String
  write : Bool
deriving DecidableEq, Repr

/-- `getRelativePath` from cli.ts: the file's path relative to the
configuration file's directory (paths are absolute, so `path.resolve` on the
file path is the identity). -/
def getRelativePath (filePath : String) (opt : Options) : List String :=
  relativePath (getDirectory (splitPath opt.tsconfig)) (splitPath filePath)

/-- `getOutputFilePath` from cli.ts: resolve the relative path against the
output folder. -/
def getOutputFilePath (filePath : String) (opt : Options) : List String :=
  resolvePath (splitPath opt.outputFolder) (getRelativePath filePath opt)

theorem relativePath_append (d rest : List String) :
    relativePath d (d ++ rest) = rest := by
  induction d with
  | nil => cases rest <;> simp [relativePath]
  | cons f fs ih => simpa [relativePath] using ih

theorem resolvePath_no_dotdot (rest : List String) (base : List String)
    (h : ".." ∉ rest) : resolvePath base rest = base ++ rest := by
  induction rest generalizing base with
  | nil => simp [resolvePath]
  | cons s rest ih =>
    have hs : s ≠ ".." := fun hc => h (hc ▸ List.mem_cons_self s rest)
    have h' : ".." ∉ rest := fun hc => h (List.mem_cons_of_mem s hc)
    have step : resolvePath base (s :: rest) = resolvePath (base ++ [s]) rest := by
      simp [resolvePath, hs]
    rw [step, ih _ h']
    simp

/-- C8: if a changed file lies under the configuration file's directory, its
output location is that directory-relative path resolved against the output
folder — the directory structure under the configuration root is mirrored
under the output root. -/
theorem getOutputFilePath_mirrors (opt : Options) (filePath : String)
    (rest : List String)
    (hunder : splitPath filePath = getDirectory (splitPath opt.tsconfig) ++ rest)
    (hclean : ".." ∉ rest) :
    getOutputFilePath filePath opt = splitPath opt.outputFolder ++ rest := by
  rw [getOutputFilePath, getRelativePath, hunder, relativePath_append,
    resolvePath_no_dotdot rest _ hclean]

/-- C8 witness: `<configDir>/src/x.ts` with `outputDir = <configDir>/out`
maps to `<configDir>/out/src/x.ts`. -/
theorem getOutputFilePath_mirrors_witness :
    getOutputFilePath "/proj/src/x.ts"
        ⟨"/proj", "/proj/tsconfig.json", "/proj/out", [], false⟩
      = splitPath "/proj/out" ++ ["src", "x.ts"] :=
  getOutputFilePath_mirrors ⟨"/proj", "/proj/tsconfig.json", "/proj/out", [], false⟩
    "/proj/src/x.ts" ["src", "x.ts"] (by decide) (by decide)

def nodeModulesChars : List Char := "node_modules".data

/-- Does the regex `[\\/]node_modules[\\/]` match at the head of the list? -/
def nodeModulesAtHead : List Char → Bool
  | [] => false
  | c :: rest =>
    isPathSep c && (rest.take 12 == nodeModulesChars) &&
      (match rest.drop 12 with
       | [] => false
       | d :: _ => isPathSep d)

/-- Scan every suffix for a match (regex `test` semantics). -/
def nodeModulesScan : List Char → Bool
  | [] => false
  | c :: rest => nodeModulesAtHead (c :: rest) || nodeModulesScan rest

/-- The check from cli.ts on a file name. -/
def hasNodeModulesSegment (s : String) : Bool := nodeModulesScan s.data

/-- A source file of the program, as the enumerator consumes it. -/
structure SourceFile where
  fileName : String
  text : List Char
  isDeclarationFile : Bool
deriving DecidableEq, Repr

/-- The project: the TypeScript version string and the program's source files
in the order `program.getSourceFiles()` exposes them.  The language service is
the fix-provider collaborator and is passed separately as a function. -/
structure Project where
  tsVersion : String
  sourceFiles : List SourceFile
deriving DecidableEq, Repr

/-- One yielded element of the generator. -/
structure FixResult where
  fileName : String
  textChanges : List TextChange
deriving DecidableEq, Repr

/-- The subset check from cli.ts: `files !== null && !files.has(name)`. -/
def skipBySubset (files : Option (List String)) (name : String) : Bool :=
  match files with
  | none => false
  | some l => !(l.contains name)

/-- `genCodeFixesFromProject` from cli.ts with the generator materialised: the
yielded `FixResult`s in order, together with the generator's own log lines.
`provider name` stands for
`languageService.getCombinedCodeFix({type:'file', fileName:name},
'fixMissingTypeAnnotationOnExports', {}, {allowRenameOfImportPath:false,
autoImportFileExcludePatterns:['**/react/jsx-runtime']}).changes`, each
element being that change's `textChanges`.  The three skip checks appear in
source order. -/
def genCodeFixesFromProject (provider : String → List (List TextChange))
    (files : Option (List String)) : List SourceFile → List FixResult × List String
  | [] => ([], [])
  | file :: rest =>
    if hasNodeModulesSegment file.fileName then
      genCodeFixesFromProject provider files rest
    else if file.isDeclarationFile then
      genCodeFixesFromProject provider files rest
    else if skipBySubset files file.fileName then
      genCodeFixesFromProject provider files rest
    else
      let tail := genCodeFixesFromProject provider files rest
      let gettingLog := "Getting codefixes for " ++ file.fileName
      match provider file.fileName with
      | [] => (tail.1, gettingLog :: tail.2)
      | c :: cs =>
        (⟨file.fileName, c⟩ :: tail.1,
         gettingLog ::
           ((if cs.isEmpty then [] else ["Multiple fixes found for " ++ file.fileName])
             ++ tail.2))

/-- Inversion: every yielded result comes from a source file that passed all
three skip checks and whose provider returned a non-empty change list, and it
carries the first change's edits. -/
theorem genCodeFixes_mem_inv (provider : String → List (List TextChange))
    (files : Option (List String)) (sfs : List SourceFile) (r : FixResult)
    (hr : r ∈ (genCodeFixesFromProject provider files sfs).1) :
    ∃ sf ∈ sfs, r.fileName = sf.fileName ∧
      hasNodeModulesSegment sf.fileName = false ∧
      sf.isDeclarationFile = false ∧
      skipBySubset files sf.fileName = false ∧
      ∃ c cs, provider sf.fileName = c :: cs ∧ r.textChanges = c := by
  induction sfs with
  | nil => simp [genCodeFixesFromProject] at hr
  | cons file rest ih =>
    by_cases h₁ : hasNodeModulesSegment file.fileName
    · rw [genCodeFixesFromProject, if_pos h₁] at hr
      obtain ⟨sf, hmem, hrest⟩ := ih hr
      exact ⟨sf, List.mem_cons_of_mem _ hmem, hrest⟩
    · by_cases h₂ : file.isDeclarationFile
      · rw [genCodeFixesFromProject, if_neg h₁, if_pos h₂] at hr
        obtain ⟨sf, hmem, hrest⟩ := ih hr
        exact ⟨sf, List.mem_cons_of_mem _ hmem, hrest⟩
      · by_cases h₃ : skipBySubset files file.fileName
        · rw [genCodeFixesFromProject, if_neg h₁, if_neg h₂, if_pos h₃] at hr
          obtain ⟨sf, hmem, hrest⟩ := ih hr
          exact ⟨sf, List.mem_cons_of_mem _ hmem, hrest⟩
        · rw [genCodeFixesFromProject, if_neg h₁, if_neg h₂, if_neg h₃] at hr
          rcases hp : provider file.fileName with _ | ⟨c, cs⟩
          · rw [hp] at hr
            simp only at hr
            obtain ⟨sf, hmem, hrest⟩ := ih hr
            exact ⟨sf, List.mem_cons_of_mem _ hmem, hrest⟩
          · rw [hp] at hr
            simp only [List.mem_cons] at hr
            rcases hr with hr | hr
            · refine ⟨file, List.mem_cons_self _ _, ?_⟩
              subst hr
              exact ⟨rfl, by simpa using h₁, by simpa using h₂, by simpa using h₃,
                c, cs, hp, rfl⟩
            · obtain ⟨sf, hmem, hrest⟩ := ih hr
              exact ⟨sf, List.mem_cons_of_mem _ hmem, hrest⟩

/-- Completeness: a file that passes all three checks and gets at least one
candidate change is yielded with the first candidate's edits, and when there
are several candidates the diagnostic line is logged. -/
theorem genCodeFixes_mem_of (provider : String → List (List TextChange))
    (files : Option (List String)) (sfs : List SourceFile) (f : SourceFile)
    (hf : f ∈ sfs)
    (h₁ : hasNodeModulesSegment f.fileName = false)
    (h₂ : f.isDeclarationFile = false)
    (h₃ : skipBySubset files f.fileName = false)
    (c : List TextChange) (cs : List (List TextChange))
    (hp : provider f.fileName = c :: cs) :
    (⟨f.fileName, c⟩ : FixResult) ∈ (genCodeFixesFromProject provider files sfs).1 ∧
      (cs ≠ [] →
        ("Multiple fixes found for " ++ f.fileName)
          ∈ (genCodeFixesFromProject provider files sfs).2) := by
  induction sfs with
  | nil => simp at hf
  | cons file rest ih =>
    rcases List.mem_cons.mp hf with rfl | hf'
    · rw [genCodeFixesFromProject, if_neg (by simp [h₁]), if_neg (by simp [h₂]),
        if_neg (by simp [h₃]), hp]
      constructor
      · exact List.mem_cons_self _ _
      · intro hcs
        simp [List.isEmpty_iff, hcs]
    · have tail := ih hf'
      rw [genCodeFixesFromProject]
      by_cases g₁ : hasNodeModulesSegment file.fileName
      · rw [if_pos g₁]; exact tail
      · rw [if_neg g₁]
        by_cases g₂ : file.isDeclarationFile
        · rw [if_pos g₂]; exact tail
        · rw [if_neg g₂]
          by_cases g₃ : skipBySubset files file.fileName
          · rw [if_pos g₃]; exact tail
          · rw [if_neg g₃]
            rcases hq : provider file.fileName with _ | ⟨d, ds⟩
            · exact ⟨tail.1, fun hcs => List.mem_cons_of_mem _ (tail.2 hcs)⟩
            · refine ⟨List.mem_cons_of_mem _ tail.1, fun hcs => ?_⟩
              refine List.mem_cons_of_mem _ (List.mem_append_right _ (tail.2 hcs))

theorem nodeModulesScan_append (l₁ l₂ : List Char) (h : nodeModulesScan l₂ = true) :
    nodeModulesScan (l₁ ++ l₂) = true := by
  induction l₁ with
  | nil => simpa using h
  | cons c l₁ ih => simp [nodeModulesScan, ih]

theorem nodeModulesAtHead_boundary (s₁ s₂ : Char) (post : List Char)
    (h₁ : isPathSep s₁ = true) (h₂ : isPathSep s₂ = true) :
    nodeModulesAtHead (s₁ :: ("node_modules".data ++ s₂ :: post)) = true := by
  have hlist : "node_modules".data ++ s₂ :: post
      = 'n' :: 'o' :: 'd' :: 'e' :: '_' :: 'm' :: 'o' :: 'd' :: 'u' :: 'l' :: 'e' :: 's'
          :: s₂ :: post := rfl
  rw [hlist]
  simp [nodeModulesAtHead, h₁, h₂, nodeModulesChars]

/-- C6: a file whose path has a `node_modules` segment (delimited by either
separator style), or a declaration-only file, is never yielded by the
enumerator — whatever the supplied file subset is and even when the provider
has fixes for it; and the separator matching is portable: surrounding the
segment with `/` or with `\` both trigger the skip. -/
theorem enumerator_skips_node_modules_and_declarations :
    (∀ (provider : String → List (List TextChange)) (files : Option (List String))
        (sfs : List SourceFile) (f : SourceFile),
      (sfs.map SourceFile.fileName).Nodup → f ∈ sfs →
      (hasNodeModulesSegment f.fileName = true ∨ f.isDeclarationFile = true) →
      ∀ r ∈ (genCodeFixesFromProject provider files sfs).1, r.fileName ≠ f.fileName) ∧
    (∀ pre post : String,
      hasNodeModulesSegment (pre ++ "/node_modules/" ++ post) = true ∧
      hasNodeModulesSegment (pre ++ "\\node_modules\\" ++ post) = true) := by
  constructor
  · intro provider files sfs f hnodup hf hskip r hr hname
    obtain ⟨sf, hsf, hrn, hnm, hdecl, -, -⟩ :=
      genCodeFixes_mem_inv provider files sfs r hr
    have hij := List.inj_on_of_nodup_map hnodup hsf hf (by rw [← hrn, hname])
    rcases hskip with hskip | hskip
    · rw [hij, hskip] at hnm; cases hnm
    · rw [hij, hskip] at hdecl; cases hdecl
  · intro pre post
    constructor
    · show nodeModulesScan (pre ++ "/node_modules/" ++ post).data = true
      rw [String.data_append, String.data_append, List.append_assoc]
      apply nodeModulesScan_append
      have hlist : ("/node_modules/".data : List Char) ++ post.data
          = '/' :: ("node_modules".data ++ '/' :: post.data) := rfl
      rw [hlist, nodeModulesScan,
        nodeModulesAtHead_boundary '/' '/' post.data rfl rfl, Bool.true_or]
    · show nodeModulesScan (pre ++ "\\node_modules\\" ++ post).data = true
      rw [String.data_append, String.data_append, List.append_assoc]
      apply nodeModulesScan_append
      have hlist : ("\\node_modules\\".data : List Char) ++ post.data
          = '\\' :: ("node_modules".data ++ '\\' :: post.data) := rfl
      rw [hlist, nodeModulesScan,
        nodeModulesAtHead_boundary '\\' '\\' post.data rfl rfl, Bool.true_or]

/-- C6 witness: a three-file project in which the `node_modules` file and the
declaration file have provider fixes but only the ordinary file's name can be
yielded, plus both separator styles at concrete paths. -/
theorem enumerator_skips_witness :
    hasNodeModulesSegment ("/p" ++ "/node_modules/" ++ "a.ts") = true ∧
    hasNodeModulesSegment ("C:" ++ "\\node_modules\\" ++ "a.ts") = true ∧
    (⟨"/p/c.ts", [⟨⟨0, 1⟩, ['a']⟩]⟩ : FixResult).fileName ≠ "/p/node_modules/a.ts" := by
  refine ⟨(enumerator_skips_node_modules_and_declarations.2 "/p" "a.ts").1,
    (enumerator_skips_node_modules_and_declarations.2 "C:" "a.ts").2, ?_⟩
  exact enumerator_skips_node_modules_and_declarations.1
    (fun n => if n = "/p/c.ts" then [[⟨⟨0, 1⟩, ['a']⟩]] else [[⟨⟨0, 0⟩, ['z']⟩]])
    (some ["/p/c.ts", "/p/node_modules/a.ts", "/p/d.d.ts"])
    [⟨"/p/node_modules/a.ts", ['x'], false⟩, ⟨"/p/d.d.ts", ['y'], true⟩,
     ⟨"/p/c.ts", ['z'], false⟩]
    ⟨"/p/node_modules/a.ts", ['x'], false⟩
    (by decide) (by decide) (Or.inl (by decide))
    ⟨"/p/c.ts", [⟨⟨0, 1⟩, ['a']⟩]⟩ (by decide)

/-- C7: if the provider returns zero candidate combined changes for a file,
that file is absent from the enumerator's output (and nothing is thrown —
the enumerator is a total function); if it returns one or more, the first
candidate's edit list is yielded, every yielded entry for that file carries
exactly that first candidate, and with several candidates the
`Multiple fixes found` diagnostic is logged. -/
theorem enumerator_candidate_policy :
    (∀ (provider : String → List (List TextChange)) (files : Option (List String))
        (sfs : List SourceFile) (f : SourceFile),
      (sfs.map SourceFile.fileName).Nodup → f ∈ sfs →
      provider f.fileName = [] →
      ∀ r ∈ (genCodeFixesFromProject provider files sfs).1, r.fileName ≠ f.fileName) ∧
    (∀ (provider : String → List (List TextChange)) (files : Option (List String))
        (sfs : List SourceFile) (f : SourceFile)
        (c : List TextChange) (cs : List (List TextChange)),
      (sfs.map SourceFile.fileName).Nodup → f ∈ sfs →
      hasNodeModulesSegment f.fileName = false →
      f.isDeclarationFile = false →
      skipBySubset files f.fileName = false →
      provider f.fileName = c :: cs →
      (⟨f.fileName, c⟩ : FixResult) ∈ (genCodeFixesFromProject provider files sfs).1 ∧
        (∀ r ∈ (genCodeFixesFromProject provider files sfs).1,
          r.fileName = f.fileName → r.textChanges = c) ∧
        (cs ≠ [] →
          ("Multiple fixes found for " ++ f.fileName)
            ∈ (genCodeFixesFromProject provider files sfs).2)) := by
  constructor
  · intro provider files sfs f hnodup hf hzero r hr hname
    obtain ⟨sf, hsf, hrn, -, -, -, c, cs, hp, -⟩ :=
      genCodeFixes_mem_inv provider files sfs r hr
    have hij := List.inj_on_of_nodup_map hnodup hsf hf (by rw [← hrn, hname])
    rw [hij, hzero] at hp
    cases hp
  · intro provider files sfs f c cs hnodup hf h₁ h₂ h₃ hp
    obtain ⟨hy, hlog⟩ := genCodeFixes_mem_of provider files sfs f hf h₁ h₂ h₃ c cs hp
    refine ⟨hy, ?_, hlog⟩
    intro r hr hname
    obtain ⟨sf, hsf, hrn, -, -, -, d, ds, hq, htc⟩ :=
      genCodeFixes_mem_inv provider files sfs r hr
    have hij := List.inj_on_of_nodup_map hnodup hsf hf (by rw [← hrn, hname])
    rw [hij, hp] at hq
    injection hq with h₄ h₅
    rw [htc, ← h₄]

/-- C7 witness: a two-file project where one file gets no candidates and the
other gets two; the first candidate is yielded, its edits are the only ones
yielded for that file, and the diagnostic is logged. -/
theorem enumerator_candidate_policy_witness :
    (⟨"/p/c.ts", [⟨⟨0, 1⟩, ['a']⟩]⟩ : FixResult)
      ∈ (genCodeFixesFromProject
          (fun n => if n = "/p/c.ts"
            then [[⟨⟨0, 1⟩, ['a']⟩], [⟨⟨2, 1⟩, ['b']⟩]] else [])
          none [⟨"/p/z.ts", ['w'], false⟩, ⟨"/p/c.ts", ['z'], false⟩]).1 ∧
    ("Multiple fixes found for " ++ "/p/c.ts")
      ∈ (genCodeFixesFromProject
          (fun n => if n = "/p/c.ts"
            then [[⟨⟨0, 1⟩, ['a']⟩], [⟨⟨2, 1⟩, ['b']⟩]] else [])
          none [⟨"/p/z.ts", ['w'], false⟩, ⟨"/p/c.ts", ['z'], false⟩]).2 ∧
    (⟨"/p/c.ts", [⟨⟨0, 1⟩, ['a']⟩]⟩ : FixResult).fileName ≠ "/p/z.ts" := by
  have happ := enumerator_candidate_policy.2
    (fun n => if n = "/p/c.ts"
      then [[⟨⟨0, 1⟩, ['a']⟩], [⟨⟨2, 1⟩, ['b']⟩]] else [])
    none [⟨"/p/z.ts", ['w'], false⟩, ⟨"/p/c.ts", ['z'], false⟩]
    ⟨"/p/c.ts", ['z'], false⟩ [⟨⟨0, 1⟩, ['a']⟩] [[⟨⟨2, 1⟩, ['b']⟩]]
    (by decide) (by decide) (by decide) (by decide) (by decide) (by decide)
  have hzero := enumerator_candidate_policy.1
    (fun n => if n = "/p/c.ts"
      then [[⟨⟨0, 1⟩, ['a']⟩], [⟨⟨2, 1⟩, ['b']⟩]] else [])
    none [⟨"/p/z.ts", ['w'], false⟩, ⟨"/p/c.ts", ['z'], false⟩]
    ⟨"/p/z.ts", ['w'], false⟩ (by decide) (by decide) (by decide)
    ⟨"/p/c.ts", [⟨⟨0, 1⟩, ['a']⟩]⟩ happ.1
  exact ⟨happ.1, happ.2.2 (by decide), hzero⟩

/-- One host interaction: a console log line, a file write (with its target
path in segments and contents), or a recursive directory creation. -/
inductive Event where
  | log (s : String)
  | writeFile (target : List String) (content : List Char)
  | mkdir (dir : List String)
deriving DecidableEq, Repr

/-- `checkOptions` from cli.ts: each requested file is joined onto the
configuration file's directory and partitioned by `fs.existsSync`; when files
were requested and none resolved to an existing path, the function throws
`All provided files are invalid` (a thrown exception is `Except.error`). -/
def checkOptions (fsExists : String → Bool) (opt : Options) :
    Except String (List String × List String) :=
  if opt.file.isEmpty then Except.ok ([], [])
  else
    let resolved := opt.file.map (fun f => joinPath (dirnameString opt.tsconfig) f)
    let validFiles := resolved.filter (fun p => fsExists p)
    let invalidFiles := resolved.filter (fun p => !fsExists p)
    if validFiles.isEmpty then Except.error "All provided files are invalid"
    else Except.ok (validFiles, invalidFiles)

/-- The warning block `codefixProject` logs when some requested paths were
invalid (the first line carries the host's newline, `"\r\n"` in `CLIHost`). -/
def warnInvalid (invalidFiles : List String) : List Event :=
  if invalidFiles.isEmpty then []
  else
    Event.log ("\r\n" ++ "The following file paths are invalid:")
      :: invalidFiles.map (fun f => Event.log f)

/-- `writeToFile` from cli.ts, as the host events it produces: compute the
output path, create its directory when the host says it is absent, write the
contents, log the updated path relative to the working directory. -/
def writeToFile (fileName : String) (fileContents : List Char) (opt : Options)
    (dirExists : List String → Bool) : List Event :=
  let writeToFileName := getOutputFilePath fileName opt
  let writeToDirectory := getDirectory writeToFileName
  (if dirExists writeToDirectory then [] else [Event.mkdir writeToDirectory])
    ++ [Event.writeFile writeToFileName fileContents,
        Event.log ("Updated " ++ renderAbs (relativePath (splitPath opt.cwd) writeToFileName))]

/-- The body of `codefixProject`'s `for` loop over the generator's output:
log, re-fetch the source file from the program (throwing when it is missing),
apply the changes, record them in the changed-files map, and write when the
write flag is on.  Returns the emitted events, the final map, and the thrown
error if any. -/
def applyFixes (project : Project) (opt : Options) (dirExists : List String → Bool) :
    List FixResult → Overlay → List Event × Overlay × Option String
  | [], ov => ([], ov, none)
  | fr :: rest, ov =>
    let applying := Event.log ("Applying fixes to file: " ++ fr.fileName)
    match project.sourceFiles.find? (fun sf => sf.fileName == fr.fileName) with
    | none => ([applying], ov, some ("File " ++ fr.fileName ++ " not found in project"))
    | some sourceFile =>
      let changedFile := doTextChanges sourceFile.text fr.textChanges
      let ov' := setOverlay ov fr.fileName ⟨sourceFile.text, changedFile⟩
      let writeEvents :=
        if opt.write then writeToFile fr.fileName changedFile opt dirExists else []
      let tail := applyFixes project opt dirExists rest ov'
      (applying :: (writeEvents ++ tail.1), tail.2.1, tail.2.2)

/-- `codefixProject` from cli.ts.  `project?` models the result of
`createProject` (`none` when no program could be built); `provider` is the
language service's combined-code-fix collaborator.  The generator is
materialised before the loop, so the trace lists the generator's log lines
before the loop's events; the multiset of events and every other component
are as in the source.  The result is `Except.error` for a thrown exception
and `Except.ok` for the returned status string. -/
def codefixProject (fsExists : String → Bool) (dirExists : List String → Bool)
    (project? : Option Project) (provider : String → List (List TextChange))
    (opt : Options) : Except String String × List Event × Overlay :=
  match checkOptions fsExists opt with
  | Except.error e => (Except.error e, [], emptyOverlay)
  | Except.ok (validFiles, invalidFiles) =>
    match project? with
    | none => (Except.ok "Error: Could not create project.",
        warnInvalid invalidFiles, emptyOverlay)
    | some project =>
      let gen := genCodeFixesFromProject provider
        (if opt.file.isEmpty then none else some validFiles) project.sourceFiles
      let applied := applyFixes project opt dirExists gen.1 emptyOverlay
      (match applied.2.2 with
        | some e => Except.error e
        | none => Except.ok "Done",
       warnInvalid invalidFiles
         ++ Event.log ("Using TypeScript " ++ project.tsVersion)
         :: gen.2.map (fun s => Event.log s)
         ++ applied.1,
       applied.2.1)

/-- C3: subset validation joins each requested path onto the configuration
file's directory and checks existence; it throws exactly when the request
list is non-empty and every resolved path fails the check — and then the run
returns that error with no host interaction and no change recorded; on
success it hands back the valid and the invalid resolved paths in request
order; with a partially-invalid request the run continues: it logs the
invalid-path warning block and still reaches the project phase. -/
theorem checkOptions_validation :
    (∀ (fsExists : String → Bool) (opt : Options),
      (∃ e, checkOptions fsExists opt = Except.error e) ↔
        (opt.file ≠ [] ∧ ∀ f ∈ opt.file,
          fsExists (joinPath (dirnameString opt.tsconfig) f) = false)) ∧
    (∀ (fsExists : String → Bool) (opt : Options) (valid invalid : List String),
      checkOptions fsExists opt = Except.ok (valid, invalid) →
        valid = (opt.file.map (fun f => joinPath (dirnameString opt.tsconfig) f)).filter
            (fun p => fsExists p) ∧
        invalid = (opt.file.map (fun f => joinPath (dirnameString opt.tsconfig) f)).filter
            (fun p => !fsExists p)) ∧
    (∀ (fsExists : String → Bool) (dirExists : List String → Bool)
        (project? : Option Project) (provider : String → List (List TextChange))
        (opt : Options) (e : String),
      checkOptions fsExists opt = Except.error e →
        codefixProject fsExists dirExists project? provider opt
          = (Except.error e, [], emptyOverlay)) ∧
    (∀ (fsExists : String → Bool) (dirExists : List String → Bool)
        (project? : Option Project) (provider : String → List (List TextChange))
        (opt : Options) (valid invalid : List String),
      checkOptions fsExists opt = Except.ok (valid, invalid) → invalid ≠ [] →
        Event.log ("\r\n" ++ "The following file paths are invalid:")
            ∈ (codefixProject fsExists dirExists project? provider opt).2.1 ∧
          (∀ f ∈ invalid,
            Event.log f ∈ (codefixProject fsExists dirExists project? provider opt).2.1) ∧
          (∀ project, project? = some project →
            Event.log ("Using TypeScript " ++ project.tsVersion)
              ∈ (codefixProject fsExists dirExists project? provider opt).2.1)) := by
  refine ⟨?_, ?_, ?_, ?_⟩
  · intro fsExists opt
    by_cases hemp : opt.file.isEmpty
    · have hnil : opt.file = [] := List.isEmpty_iff.mp hemp
      simp [checkOptions, hemp, hnil]
    · have hne : opt.file ≠ [] := fun hc => hemp (by simp [hc])
      rw [checkOptions, if_neg hemp]
      by_cases hval :
          ((opt.file.map (fun f => joinPath (dirnameString opt.tsconfig) f)).filter
            (fun p => fsExists p)).isEmpty
      · rw [if_pos hval]
        constructor
        · intro _
          refine ⟨hne, ?_⟩
          intro f hf
          have := List.isEmpty_iff.mp hval
          rw [List.filter_eq_nil_iff] at this
          have hp := this (joinPath (dirnameString opt.tsconfig) f)
            (List.mem_map_of_mem _ hf)
          simpa using hp
        · intro _
          exact ⟨"All provided files are invalid", rfl⟩
      · rw [if_neg hval]
        constructor
        · rintro ⟨e, he⟩
          cases he
        · rintro ⟨-, hall⟩
          exfalso
          apply hval
          apply List.isEmpty_iff.mpr
          rw [List.filter_eq_nil_iff]
          intro p hp
          obtain ⟨f, hf, rfl⟩ := List.mem_map.mp hp
          simp [hall f hf]
  · intro fsExists opt valid invalid h
    by_cases hemp : opt.file.isEmpty
    · have hnil : opt.file = [] := List.isEmpty_iff.mp hemp
      rw [checkOptions, if_pos hemp] at h
      injection h with h
      injection h with h₁ h₂
      simp [← h₁, ← h₂, hnil]
    · rw [checkOptions, if_neg hemp] at h
      by_cases hval :
          ((opt.file.map (fun f => joinPath (dirnameString opt.tsconfig) f)).filter
            (fun p => fsExists p)).isEmpty
      · rw [if_pos hval] at h
        cases h
      · rw [if_neg hval] at h
        injection h with h
        injection h with h₁ h₂
        exact ⟨h₁.symm, h₂.symm⟩
  · intro fsExists dirExists project? provider opt e h
    simp [codefixProject, h]
  · intro fsExists dirExists project? provider opt valid invalid h hinv
    have hwarn : warnInvalid invalid
        = Event.log ("\r\n" ++ "The following file paths are invalid:")
            :: invalid.map (fun f => Event.log f) := by
      rw [warnInvalid, if_neg (by simpa using hinv)]
    cases project? with
    | none =>
      simp only [codefixProject, h]
      refine ⟨?_, ?_, ?_⟩
      · rw [hwarn]; exact List.mem_cons_self _ _
      · intro f hf
        rw [hwarn]
        exact List.mem_cons_of_mem _ (List.mem_map_of_mem _ hf)
      · intro project hc
        cases hc
    | some project =>
      simp only [codefixProject, h]
      refine ⟨?_, ?_, ?_⟩
      · apply List.mem_append_left
        rw [hwarn]; exact List.mem_cons_self _ _
      · intro f hf
        apply List.mem_append_left
        rw [hwarn]
        exact List.mem_cons_of_mem _
          (List.mem_append_left _ (List.mem_map_of_mem _ hf))
      · intro project' hc
        injection hc with hc
        subst hc
        exact List.mem_append_left _
          (List.mem_append_right _ (List.mem_cons_self _ _))

/-- C3 witness: with both requested files missing the run aborts with the
all-invalid error and an empty trace; with one of two valid it proceeds,
warns about `/proj/missing.ts`, and reaches the project phase. -/
theorem checkOptions_validation_witness :
    (∃ e, checkOptions (fun _ => false)
        ⟨"/proj", "/proj/tsconfig.json", "/proj", ["missing1.ts", "missing2.ts"], false⟩
        = Except.error e) ∧
    codefixProject (fun _ => false) (fun _ => true) none (fun _ => [])
        ⟨"/proj", "/proj/tsconfig.json", "/proj", ["missing1.ts", "missing2.ts"], false⟩
      = (Except.error "All provided files are invalid", [], emptyOverlay) ∧
    Event.log ("\r\n" ++ "The following file paths are invalid:")
      ∈ (codefixProject (fun p => p == "/proj/a.ts") (fun _ => true)
          (some ⟨"5.5", [⟨"/proj/a.ts", "abc".data, false⟩]⟩) (fun _ => [])
          ⟨"/proj", "/proj/tsconfig.json", "/proj", ["a.ts", "missing.ts"], false⟩).2.1 ∧
    Event.log "/proj/missing.ts"
      ∈ (codefixProject (fun p => p == "/proj/a.ts") (fun _ => true)
          (some ⟨"5.5", [⟨"/proj/a.ts", "abc".data, false⟩]⟩) (fun _ => [])
          ⟨"/proj", "/proj/tsconfig.json", "/proj", ["a.ts", "missing.ts"], false⟩).2.1 ∧
    Event.log ("Using TypeScript " ++ "5.5")
      ∈ (codefixProject (fun p => p == "/proj/a.ts") (fun _ => true)
          (some ⟨"5.5", [⟨"/proj/a.ts", "abc".data, false⟩]⟩) (fun _ => [])
          ⟨"/proj", "/proj/tsconfig.json", "/proj", ["a.ts", "missing.ts"], false⟩).2.1 := by
  have hok : checkOptions (fun p => p == "/proj/a.ts")
      ⟨"/proj", "/proj/tsconfig.json", "/proj", ["a.ts", "missing.ts"], false⟩
      = Except.ok (["/proj/a.ts"], ["/proj/missing.ts"]) := by rfl
  have hpartial := checkOptions_validation.2.2.2 (fun p => p == "/proj/a.ts")
    (fun _ => true) (some ⟨"5.5", [⟨"/proj/a.ts", "abc".data, false⟩]⟩) (fun _ => [])
    ⟨"/proj", "/proj/tsconfig.json", "/proj", ["a.ts", "missing.ts"], false⟩
    ["/proj/a.ts"] ["/proj/missing.ts"] hok (by decide)
  refine ⟨(checkOptions_validation.1 _ _).mpr ⟨by decide, by decide⟩, ?_,
    hpartial.1, hpartial.2.1 "/proj/missing.ts" (by decide),
    hpartial.2.2 ⟨"5.5", [⟨"/proj/a.ts", "abc".data, false⟩]⟩ rfl⟩
  exact checkOptions_validation.2.2.1 (fun _ => false) (fun _ => true) none (fun _ => [])
    ⟨"/proj", "/proj/tsconfig.json", "/proj", ["missing1.ts", "missing2.ts"], false⟩
    "All provided files are invalid" (by rfl)

theorem not_writeFile_mem_warnInvalid (l : List String) (t : List String) (c : List Char) :
    Event.writeFile t c ∉ warnInvalid l := by
  rw [warnInvalid]
  split
  · simp
  · simp

theorem applyFixes_no_write (project : Project) (opt : Options)
    (dirExists : List String → Bool) (h : opt.write = false)
    (frs : List FixResult) (ov : Overlay) (t : List String) (c : List Char) :
    Event.writeFile t c ∉ (applyFixes project opt dirExists frs ov).1 := by
  induction frs generalizing ov with
  | nil => simp [applyFixes]
  | cons fr rest ih =>
    rcases hfind : project.sourceFiles.find? (fun sf => sf.fileName == fr.fileName)
        with _ | sf
    · simp [applyFixes, hfind]
    · simp only [applyFixes, hfind, h, if_false, List.nil_append, List.mem_cons]
      rintro (hc | hc)
      · cases hc
      · exact ih _ hc

/-- C9: with the write flag off, no `writeFile` host call occurs anywhere in
the run's event trace, however many files received fixes; the new texts live
only in the returned changed-files overlay. -/
theorem dry_run_no_writes (fsExists : String → Bool) (dirExists : List String → Bool)
    (project? : Option Project) (provider : String → List (List TextChange))
    (opt : Options) (h : opt.write = false) (t : List String) (c : List Char) :
    Event.writeFile t c ∉ (codefixProject fsExists dirExists project? provider opt).2.1 := by
  rcases hchk : checkOptions fsExists opt with e | ⟨valid, invalid⟩
  · simp [codefixProject, hchk]
  · cases project? with
    | none =>
      simp only [codefixProject, hchk]
      exact not_writeFile_mem_warnInvalid _ _ _
    | some project =>
      simp only [codefixProject, hchk, List.mem_append, List.mem_cons]
      rintro ((hc | hc | hc) | hc)
      · exact not_writeFile_mem_warnInvalid _ _ _ hc
      · cases hc
      · obtain ⟨s, -, hs⟩ := List.mem_map.mp hc
        cases hs
      · exact applyFixes_no_write project opt dirExists h _ _ _ _ hc

/-- C9 witness: a dry run over a one-file project that does receive a fix
emits no `writeFile` event. -/
theorem dry_run_no_writes_witness :
    Event.writeFile ["proj", "out", "a.ts"] "Zbc".data
      ∉ (codefixProject (fun _ => true) (fun _ => true)
          (some ⟨"5.5", [⟨"/proj/a.ts", "abc".data, false⟩]⟩)
          (fun _ => [[⟨⟨0, 1⟩, ['Z']⟩]])
          ⟨"/proj", "/proj/tsconfig.json", "/proj/out", [], false⟩).2.1 :=
  dry_run_no_writes (fun _ => true) (fun _ => true)
    (some ⟨"5.5", [⟨"/proj/a.ts", "abc".data, false⟩]⟩)
    (fun _ => [[⟨⟨0, 1⟩, ['Z']⟩]])
    ⟨"/proj", "/proj/tsconfig.json", "/proj/out", [], false⟩ rfl
    ["proj", "out", "a.ts"] "Zbc".data
